import Mathlib

/-!
Verification of the receive-capture pipeline of the DW1000 radar receiver
(`radar_rx.c`): the chunked accumulator read (`copyCIRToBuffer`), the binary
record serializer (`saveCIRToFile`), the 40-bit timestamp extraction
(`get_rx_timestamp_u64`), and the reception loop of `main`.

Machine integers are embedded as `Nat`/`Int` with explicit wrapping where the
C types could overflow.  Device-supplied data (status register, frame bytes,
timestamp bytes, accumulator memory) is passed in explicitly, since the
device driver is an external collaborator of this code.
-/

namespace RadarRx

/-- `#define ACC_CHUNK 64`: bytes read from accumulator memory at a time. -/
def ACC_CHUNK : Nat := 64

/-- `#define RX_BUF_LEN 24`: size of the receive frame buffer. -/
def RX_BUF_LEN : Nat := 24

/-- `#define CIR_SAMPLES 1016`: CIR samples captured per frame (64 MHz PRF). -/
def CIR_SAMPLES : Nat := 1016

/-- A device write into the front of a byte buffer: the device overwrites the
first `src.length` cells of `dst` and leaves the rest. -/
def devWrite (dst src : List Nat) : List Nat :=
  src ++ dst.drop src.length

/-- `memcpy(&buffer[dst], src, src.length)` on a byte store modelled as a
total function from offsets to bytes. -/
def memcpyAt (buffer : Nat → Nat) (dst : Nat) (src : List Nat) : Nat → Nat :=
  fun i => if dst ≤ i ∧ i < dst + src.length then src.getD (i - dst) 0 else buffer i

/-- Modelled from the spec: `dwt_readaccdata` (device driver, not part of the
three sources here).  A chunk read with size parameter `toRead` at accumulator
offset `loc` delivers one leading artifact byte followed by the `toRead`
meaningful accumulator bytes starting at `loc`. -/
def dwt_readaccdata (artifact : Nat) (mem : Nat → Nat) (toRead loc : Nat) : List Nat :=
  artifact :: (List.range toRead).map (fun i => mem (loc + i))

/-- The bytes `memcpy` takes from the scratch buffer in one loop iteration of
`copyCIRToBuffer`: the scratch buffer `buf` (of `ACC_CHUNK + 1` bytes, zeroed
by `memset`) after the device read `readacc toRead loc` wrote into its front,
then dropped by one (skipping the artifact byte `buf[0]`) and truncated to
`toRead` bytes. -/
def chunkBytes (readacc : Nat → Nat → List Nat) (toRead loc : Nat) : List Nat :=
  ((devWrite (List.replicate (ACC_CHUNK + 1) 0) (readacc toRead loc)).drop 1).take toRead

/-- The loop of `copyCIRToBuffer(buffer, len)` from `radar_rx.c`, with the
running offset `loc` explicit (it starts at 0) and the device read behaviour
`readacc` passed in (the C call `dwt_readaccdata(buf, toRead, loc)` writes
whatever the device delivers into the scratch buffer; the call returns no
status).  Returns the updated destination store together with the list of
`(toRead, loc)` device reads the loop issued, in order. -/
def copyCIRToBufferLoop (readacc : Nat → Nat → List Nat) (buffer : Nat → Nat)
    (len loc : Nat) : (Nat → Nat) × List (Nat × Nat) :=
  if h : len > ACC_CHUNK then
    -- need to loop again: only read the max allowable number of bytes
    let buffer' := memcpyAt buffer loc (chunkBytes readacc ACC_CHUNK loc)
    let r := copyCIRToBufferLoop readacc buffer' (len - ACC_CHUNK) (loc + ACC_CHUNK)
    (r.1, (ACC_CHUNK, loc) :: r.2)
  else
    -- last read: cover the remaining length and stop
    (memcpyAt buffer loc (chunkBytes readacc len loc), [(len, loc)])
  termination_by len
  decreasing_by simp only [ACC_CHUNK] at h ⊢; omega

/-- `copyCIRToBuffer(buffer, len)`: destination store after the chunked read. -/
def copyCIRToBuffer (readacc : Nat → Nat → List Nat) (buffer : Nat → Nat)
    (len : Nat) : Nat → Nat :=
  (copyCIRToBufferLoop readacc buffer len 0).1

/-- The sequence of `(size, offset)` device reads `copyCIRToBuffer(_, len)`
issues. -/
def copyCIRReads (len : Nat) : List (Nat × Nat) :=
  (copyCIRToBufferLoop (fun _ _ => []) (fun _ => 0) len 0).2

/-- Unfolding of the chunk loop when the remaining length fits in one chunk
(the `lastRead` branch). -/
lemma copyCIRToBufferLoop_le (ra : Nat → Nat → List Nat) (b : Nat → Nat)
    (len loc : Nat) (h : ¬ len > ACC_CHUNK) :
    copyCIRToBufferLoop ra b len loc =
      (memcpyAt b loc (chunkBytes ra len loc), [(len, loc)]) := by
  rw [copyCIRToBufferLoop]
  simp [h]

/-- Unfolding of the chunk loop when more than one chunk remains. -/
lemma copyCIRToBufferLoop_gt (ra : Nat → Nat → List Nat) (b : Nat → Nat)
    (len loc : Nat) (h : len > ACC_CHUNK) :
    copyCIRToBufferLoop ra b len loc =
      ((copyCIRToBufferLoop ra (memcpyAt b loc (chunkBytes ra ACC_CHUNK loc))
          (len - ACC_CHUNK) (loc + ACC_CHUNK)).1,
       (ACC_CHUNK, loc) ::
        (copyCIRToBufferLoop ra (memcpyAt b loc (chunkBytes ra ACC_CHUNK loc))
          (len - ACC_CHUNK) (loc + ACC_CHUNK)).2) := by
  rw [copyCIRToBufferLoop]
  simp [h]

/-- A chunk copy never exceeds the requested size. -/
lemma chunkBytes_length_le (ra : Nat → Nat → List Nat) (t loc : Nat) :
    (chunkBytes ra t loc).length ≤ t := by
  simp [chunkBytes]

/-- Against the spec-modelled device read, one chunk copy is exactly the
meaningful accumulator bytes: the artifact byte is dropped. -/
lemma chunkBytes_readaccdata (a : Nat) (mem : Nat → Nat) (t loc : Nat) :
    chunkBytes (dwt_readaccdata a mem) t loc =
      (List.range t).map (fun i => mem (loc + i)) := by
  unfold chunkBytes devWrite dwt_readaccdata
  rw [List.drop_one]
  rw [List.cons_append, List.tail_cons]
  rw [List.take_append_of_le_length (by simp)]
  simp

/-- Indexing a mapped range. -/
lemma getD_range_map (f : Nat → Nat) (t i : Nat) (hi : i < t) :
    ((List.range t).map f).getD i 0 = f i := by
  rw [List.getD_eq_getElem?_getD]
  rw [List.getElem?_map]
  rw [List.getElem?_range hi]
  rfl

/-- Cells outside `[loc, loc + len)` are untouched by the chunk loop, for any
device behaviour. -/
lemma copyCIRToBufferLoop_out (ra : Nat → Nat → List Nat) :
    ∀ len loc b j, (j < loc ∨ loc + len ≤ j) →
      (copyCIRToBufferLoop ra b len loc).1 j = b j := by
  intro len
  induction len using Nat.strong_induction_on with
  | _ len ih =>
    intro loc b j hj
    by_cases h : len > ACC_CHUNK
    · rw [copyCIRToBufferLoop_gt ra b len loc h]
      have h64 : ACC_CHUNK = 64 := rfl
      have step := ih (len - ACC_CHUNK) (by omega) (loc + ACC_CHUNK)
        (memcpyAt b loc (chunkBytes ra ACC_CHUNK loc)) j (by omega)
      rw [step]
      have hle := chunkBytes_length_le ra ACC_CHUNK loc
      simp only [memcpyAt]
      rw [if_neg (by omega)]
    · rw [copyCIRToBufferLoop_le ra b len loc h]
      have hle := chunkBytes_length_le ra len loc
      simp only [memcpyAt]
      rw [if_neg (by omega)]

/-- Cells inside `[loc, loc + len)` hold the accumulator bytes after the chunk
loop runs against the spec-modelled device read. -/
lemma copyCIRToBufferLoop_in (a : Nat) (mem : Nat → Nat) :
    ∀ len loc b i, i < len →
      (copyCIRToBufferLoop (dwt_readaccdata a mem) b len loc).1 (loc + i) =
        mem (loc + i) := by
  intro len
  induction len using Nat.strong_induction_on with
  | _ len ih =>
    intro loc b i hi
    have h64 : ACC_CHUNK = 64 := rfl
    by_cases h : len > ACC_CHUNK
    · rw [copyCIRToBufferLoop_gt _ b len loc h]
      by_cases hsmall : i < ACC_CHUNK
      · have step := copyCIRToBufferLoop_out (dwt_readaccdata a mem)
          (len - ACC_CHUNK) (loc + ACC_CHUNK)
          (memcpyAt b loc (chunkBytes (dwt_readaccdata a mem) ACC_CHUNK loc))
          (loc + i) (by omega)
        rw [step]
        rw [chunkBytes_readaccdata a mem ACC_CHUNK loc]
        simp only [memcpyAt, List.length_map, List.length_range]
        rw [if_pos (by omega)]
        have : loc + i - loc = i := by omega
        rw [this, getD_range_map _ _ _ hsmall]
      · have step := ih (len - ACC_CHUNK) (by omega) (loc + ACC_CHUNK)
          (memcpyAt b loc (chunkBytes (dwt_readaccdata a mem) ACC_CHUNK loc))
          (i - ACC_CHUNK) (by omega)
        have harith : loc + ACC_CHUNK + (i - ACC_CHUNK) = loc + i := by omega
        rw [harith] at step
        exact step
    · rw [copyCIRToBufferLoop_le _ b len loc h]
      rw [chunkBytes_readaccdata a mem len loc]
      simp only [memcpyAt, List.length_map, List.length_range]
      rw [if_pos (by omega)]
      have : loc + i - loc = i := by omega
      rw [this, getD_range_map _ _ _ hi]

/-- C1: for every target length `L` with `0 < L < 2^16`, `copyCIRToBuffer`
copies exactly the `L` meaningful accumulator bytes into the destination at
offsets `0 .. L-1` (covering all four shape cases of `L` against the 64-byte
chunk size), leaves every cell at offset `≥ L` untouched, and the leading
artifact byte of each raw chunk read never reaches the destination: the
result is independent of the artifact value. -/
theorem copyCIRToBuffer_copies_exactly (a : Nat) (mem buffer : Nat → Nat)
    (L : Nat) (hpos : 0 < L) (h16 : L < 65536) :
    (∀ i, i < L → copyCIRToBuffer (dwt_readaccdata a mem) buffer L i = mem i) ∧
    (∀ j, L ≤ j → copyCIRToBuffer (dwt_readaccdata a mem) buffer L j = buffer j) ∧
    (∀ a2, copyCIRToBuffer (dwt_readaccdata a2 mem) buffer L =
      copyCIRToBuffer (dwt_readaccdata a mem) buffer L) := by
  refine ⟨fun i hi => ?_, fun j hj => ?_, fun a2 => ?_⟩
  · have := copyCIRToBufferLoop_in a mem L 0 buffer i hi
    simpa [copyCIRToBuffer] using this
  · exact copyCIRToBufferLoop_out (dwt_readaccdata a mem) L 0 buffer j (Or.inr (by omega))
  · funext j
    by_cases hj : j < L
    · have h1 := copyCIRToBufferLoop_in a2 mem L 0 buffer j hj
      have h2 := copyCIRToBufferLoop_in a mem L 0 buffer j hj
      simp only [Nat.zero_add] at h1 h2
      simp only [copyCIRToBuffer]
      rw [h1, h2]
    · have h1 := copyCIRToBufferLoop_out (dwt_readaccdata a2 mem) L 0 buffer j
        (Or.inr (by omega))
      have h2 := copyCIRToBufferLoop_out (dwt_readaccdata a mem) L 0 buffer j
        (Or.inr (by omega))
      simp only [copyCIRToBuffer]
      rw [h1, h2]

/-- Concrete run of C1: length 130 = 2×64 + 2, artifact byte 170, accumulator
byte `i` holds `(i + 3) % 251`; the destination holds the accumulator bytes
below offset 130 and the original store contents above it. -/
theorem copyCIRToBuffer_copies_exactly_witness :
    copyCIRToBuffer (dwt_readaccdata 170 (fun i => (i + 3) % 251)) (fun _ => 9)
        130 65 = (65 + 3) % 251 ∧
    copyCIRToBuffer (dwt_readaccdata 170 (fun i => (i + 3) % 251)) (fun _ => 9)
        130 200 = 9 := by
  have h := copyCIRToBuffer_copies_exactly 170 (fun i => (i + 3) % 251)
    (fun _ => 9) 130 (by decide) (by decide)
  exact ⟨h.1 65 (by decide), h.2.1 200 (by decide)⟩

/-- The device reads issued by the chunk loop: their sizes sum to the target
length, their count matches the chunk arithmetic, every read is at most one
chunk, and no read is empty unless the target length itself is 0. -/
lemma copyCIRToBufferLoop_reads (ra : Nat → Nat → List Nat) :
    ∀ len loc b,
      (((copyCIRToBufferLoop ra b len loc).2).map Prod.fst).sum = len ∧
      ((copyCIRToBufferLoop ra b len loc).2).length = max 1 ((len + 63) / 64) ∧
      (∀ p ∈ (copyCIRToBufferLoop ra b len loc).2,
        p.1 ≤ ACC_CHUNK ∧ (0 < len → 0 < p.1)) := by
  intro len
  induction len using Nat.strong_induction_on with
  | _ len ih =>
    intro loc b
    have h64 : ACC_CHUNK = 64 := rfl
    by_cases h : len > ACC_CHUNK
    · rw [copyCIRToBufferLoop_gt ra b len loc h]
      obtain ⟨hsum, hlen, hmem⟩ := ih (len - ACC_CHUNK) (by omega) (loc + ACC_CHUNK)
        (memcpyAt b loc (chunkBytes ra ACC_CHUNK loc))
      refine ⟨?_, ?_, ?_⟩
      · simp only [List.map_cons, List.sum_cons, hsum]
        omega
      · simp only [List.length_cons, hlen]
        omega
      · intro p hp
        rcases List.mem_cons.mp hp with hp | hp
        · subst hp; exact ⟨le_refl _, fun _ => by omega⟩
        · obtain ⟨h1, h2⟩ := hmem p hp
          exact ⟨h1, fun _ => h2 (by omega)⟩
    · rw [copyCIRToBufferLoop_le ra b len loc h]
      refine ⟨by simp, by simp; omega, ?_⟩
      intro p hp
      rcases List.mem_singleton.mp hp with rfl
      exact ⟨by omega, fun hl => hl⟩

/-- C9: the chunk loop of `copyCIRToBuffer` terminates for every 16-bit
length (the Lean embedding is total by well-founded recursion on `len`, each
iteration with `len > ACC_CHUNK` decreasing `len` by exactly one chunk), and
its device-read trace shows: the read sizes sum to `len`, the number of reads
is `max 1 (⌈len / 64⌉)`, every read is at most one chunk, and when `len > 0`
no read — in particular none after the final chunk — has size zero. -/
theorem copyCIRReads_no_empty_read (len : Nat) :
    ((copyCIRReads len).map Prod.fst).sum = len ∧
    (copyCIRReads len).length = max 1 ((len + 63) / 64) ∧
    (∀ p ∈ copyCIRReads len, p.1 ≤ ACC_CHUNK ∧ (0 < len → 0 < p.1)) :=
  copyCIRToBufferLoop_reads (fun _ _ => []) len 0 (fun _ => 0)

/-- Concrete run of C9: a target of 128 bytes (an exact multiple of the chunk
size) issues exactly two reads, which cover 128 bytes in total. -/
theorem copyCIRReads_no_empty_read_witness :
    ((copyCIRReads 128).map Prod.fst).sum = 128 ∧
    (copyCIRReads 128).length = 2 :=
  ⟨(copyCIRReads_no_empty_read 128).1,
   ((copyCIRReads_no_empty_read 128).2.1).trans (by decide)⟩

/-- `get_rx_timestamp_u64` from `radar_rx.c`: starting from `ts = 0`, for
`i = 4` down to `0` it shifts the 64-bit accumulator left by 8 (wrapping at
`2^64`, as C `unsigned long long` would) and ORs in byte `ts_tab[i]`.
`ts_tab` holds the 5 raw timestamp bytes the device delivered, least
significant first.  `get_tx_timestamp_u64` and `get_system_timestamp_u64`
are the same loop over a different device register. -/
def get_rx_timestamp_u64 (ts_tab : List Nat) : Nat :=
  [4, 3, 2, 1, 0].foldl (fun ts i => ((ts <<< 8) % 2 ^ 64) ||| ts_tab.getD i 0) 0

/-- One shift-or step keeps the accumulator below the growing power bound. -/
lemma timestamp_step_lt (ts b k : Nat) (hts : ts < 2 ^ k) (hb : b < 256)
    (hk : k + 8 ≤ 64) :
    ((ts <<< 8) % 2 ^ 64) ||| b < 2 ^ (k + 8) := by
  have hshift : ts <<< 8 = ts * 2 ^ 8 := Nat.shiftLeft_eq ts 8
  have h1 : ts * 2 ^ 8 < 2 ^ (k + 8) := by
    rw [pow_add]
    exact (Nat.mul_lt_mul_right (by norm_num)).mpr hts
  have h2 : ts <<< 8 % 2 ^ 64 = ts <<< 8 := by
    apply Nat.mod_eq_of_lt
    calc ts <<< 8 = ts * 2 ^ 8 := hshift
    _ < 2 ^ (k + 8) := h1
    _ ≤ 2 ^ 64 := Nat.pow_le_pow_right (by norm_num) hk
  rw [h2, hshift]
  have h256 : (256 : Nat) ≤ 2 ^ (k + 8) := by
    calc (256 : Nat) = 2 ^ 8 := by norm_num
    _ ≤ 2 ^ (k + 8) := Nat.pow_le_pow_right (by norm_num) (by omega)
  exact Nat.or_lt_two_pow h1 (lt_of_lt_of_le hb h256)

/-- C4: extracting the 5 raw least-significant-first timestamp bytes
`[0x01, 0x02, 0x03, 0x04, 0x05]` yields `0x0504030201`, and for every 5-byte
input the result is below `2^40`, i.e. the top 24 bits of the 64-bit value
are zero. -/
theorem get_rx_timestamp_u64_spec :
    get_rx_timestamp_u64 [0x01, 0x02, 0x03, 0x04, 0x05] = 0x0504030201 ∧
    ∀ ts_tab : List Nat, ts_tab.length = 5 → (∀ b ∈ ts_tab, b < 256) →
      get_rx_timestamp_u64 ts_tab < 2 ^ 40 := by
  refine ⟨by decide, ?_⟩
  intro ts_tab hlen hb
  match ts_tab, hlen with
  | [b0, b1, b2, b3, b4], _ =>
    simp only [List.mem_cons, List.not_mem_nil, or_false, forall_eq_or_imp,
      forall_eq] at hb
    obtain ⟨h0, h1, h2, h3, h4⟩ := hb
    simp only [get_rx_timestamp_u64, List.foldl_cons, List.foldl_nil, List.getD,
      List.getElem?_cons_succ, List.getElem?_cons_zero, Option.getD_some]
    have s0 : (0 : Nat) < 2 ^ 0 := by norm_num
    have s1 := timestamp_step_lt 0 b4 0 s0 h4 (by norm_num)
    have s2 := timestamp_step_lt _ b3 8 s1 h3 (by norm_num)
    have s3 := timestamp_step_lt _ b2 16 s2 h2 (by norm_num)
    have s4 := timestamp_step_lt _ b1 24 s3 h1 (by norm_num)
    have s5 := timestamp_step_lt _ b0 32 s4 h0 (by norm_num)
    exact s5

/-- Concrete run of C4's bound: every 5-byte input stays below `2^40`. -/
theorem get_rx_timestamp_u64_spec_witness :
    get_rx_timestamp_u64 [0xff, 0xff, 0xff, 0xff, 0xff] < 2 ^ 40 :=
  get_rx_timestamp_u64_spec.2 [0xff, 0xff, 0xff, 0xff, 0xff] (by decide) (by decide)

/-- Little-endian byte image of a `w`-byte unsigned value, as `fwrite` lays
it out on the little-endian target. -/
def leBytes : Nat → Nat → List Nat
  | 0, _ => []
  | w + 1, v => v % 256 :: leBytes w (v / 256)

/-- Two's complement representation of a signed value in `w` bytes, as the
in-memory image of `int32`/`int16` fields. -/
def twosComplement (w : Nat) (x : Int) : Nat :=
  (x % (2 ^ (8 * w))).toNat

/-- One `struct cir_struct` as written by `fwrite`: the 16-bit real part then
the 16-bit imaginary part, each little-endian, no padding. -/
def encodeSample (s : Int × Int) : List Nat :=
  leBytes 2 (twosComplement 2 s.1) ++ leBytes 2 (twosComplement 2 s.2)

/-- The byte stream `saveCIRToFile` writes for one capture: the three
`fwrite` calls in order — `msgNo` as a 4-byte `int32`, `rxTimestamp` as an
8-byte `uint64`, then the CIR samples, contiguously. -/
def serializeRecord (msgNo : Int) (rxTimestamp : Nat) (cir : List (Int × Int)) :
    List Nat :=
  leBytes 4 (twosComplement 4 msgNo) ++
    (leBytes 8 (rxTimestamp % 2 ^ 64) ++ cir.flatMap encodeSample)

/-- `saveCIRToFile(filename, msgNo, rxTimestamp, cir)`: if `fopen` succeeds
the record bytes are written; on open failure it only logs and writes no
file. -/
def saveCIRToFile (fopen_ok : Bool) (msgNo : Int) (rxTimestamp : Nat)
    (cir : List (Int × Int)) : Option (List Nat) :=
  if fopen_ok then some (serializeRecord msgNo rxTimestamp cir) else none

/-- Value of a little-endian byte sequence. -/
def decodeLE (bytes : List Nat) : Nat :=
  bytes.foldr (fun b acc => b + 256 * acc) 0

/-- Signed reading of a `w`-byte two's complement value. -/
def decodeInt (w : Nat) (v : Nat) : Int :=
  if v < 2 ^ (8 * w - 1) then (v : Int) else (v : Int) - 2 ^ (8 * w)

/-- Re-parse the sample region of the record layout: `n` samples of 4 bytes
each, nothing more. -/
def parseSamples : Nat → List Nat → Option (List (Int × Int))
  | 0, [] => some []
  | 0, _ :: _ => none
  | n + 1, r0 :: r1 :: i0 :: i1 :: rest =>
      (parseSamples n rest).map
        (fun l => (decodeInt 2 (r0 + 256 * r1), decodeInt 2 (i0 + 256 * i1)) :: l)
  | _ + 1, [] => none
  | _ + 1, [_] => none
  | _ + 1, [_, _] => none
  | _ + 1, [_, _, _] => none

/-- Re-parse the record layout: a 4-byte signed frame index, an 8-byte
timestamp, then exactly `n` samples — no length prefix, padding or trailing
delimiter anywhere. -/
def parseRecord (n : Nat) (bytes : List Nat) :
    Option (Int × Nat × List (Int × Int)) :=
  if bytes.length = 12 + 4 * n then
    (parseSamples n (bytes.drop 12)).map
      (fun l => (decodeInt 4 (decodeLE (bytes.take 4)),
                 decodeLE ((bytes.drop 4).take 8), l))
  else none

lemma leBytes_length : ∀ w v, (leBytes w v).length = w := by
  intro w
  induction w with
  | zero => intro v; rfl
  | succ w ih => intro v; simp [leBytes, ih]

lemma decodeLE_leBytes : ∀ w v, decodeLE (leBytes w v) = v % 256 ^ w := by
  intro w
  induction w with
  | zero => intro v; simp [leBytes, decodeLE, Nat.mod_one]
  | succ w ih =>
    intro v
    have : (256 : Nat) ^ (w + 1) = 256 * 256 ^ w := by ring
    rw [this, Nat.mod_mul]
    simp only [leBytes, decodeLE, List.foldr_cons]
    have ihv := ih (v / 256)
    simp only [decodeLE] at ihv
    rw [ihv]

lemma flatMap_encodeSample_length (cir : List (Int × Int)) :
    (cir.flatMap encodeSample).length = 4 * cir.length := by
  induction cir with
  | nil => rfl
  | cons s tl ih =>
    simp only [List.flatMap_cons, List.length_append, List.length_cons, ih]
    simp [encodeSample, leBytes_length]
    ring

lemma decodeInt_twosComplement2 (x : Int) (h1 : -32768 ≤ x) (h2 : x < 32768) :
    decodeInt 2 (twosComplement 2 x) = x := by
  simp only [decodeInt, twosComplement]
  norm_num
  split <;> omega

lemma decodeInt_twosComplement4 (x : Int) (h1 : -2147483648 ≤ x)
    (h2 : x < 2147483648) :
    decodeInt 4 (twosComplement 4 x) = x := by
  simp only [decodeInt, twosComplement]
  norm_num
  split <;> omega

lemma twosComplement2_lt (x : Int) : twosComplement 2 x < 65536 := by
  simp only [twosComplement]
  omega

lemma twosComplement4_lt (x : Int) : twosComplement 4 x < 4294967296 := by
  simp only [twosComplement]
  omega

lemma parseSamples_bind (cir : List (Int × Int))
    (hr : ∀ s ∈ cir, -32768 ≤ s.1 ∧ s.1 < 32768 ∧ -32768 ≤ s.2 ∧ s.2 < 32768) :
    parseSamples cir.length (cir.flatMap encodeSample) = some cir := by
  induction cir with
  | nil => rfl
  | cons s tl ih =>
    obtain ⟨hs1, hs2, hs3, hs4⟩ := hr s (List.mem_cons_self s tl)
    have htl := fun x hx => hr x (List.mem_cons_of_mem s hx)
    have hA := twosComplement2_lt s.1
    have hB := twosComplement2_lt s.2
    have e1 : twosComplement 2 s.1 % 256 +
        256 * (twosComplement 2 s.1 / 256 % 256) = twosComplement 2 s.1 := by
      omega
    have e2 : twosComplement 2 s.2 % 256 +
        256 * (twosComplement 2 s.2 / 256 % 256) = twosComplement 2 s.2 := by
      omega
    simp only [List.flatMap_cons, encodeSample, leBytes, List.length_cons,
      List.cons_append, List.nil_append, parseSamples, e1, e2,
      decodeInt_twosComplement2 s.1 hs1 hs2,
      decodeInt_twosComplement2 s.2 hs3 hs4]
    rw [show (List.map encodeSample tl).flatten = tl.flatMap encodeSample from
      (List.flatMap_def tl encodeSample).symm]
    rw [show ([] : List Nat).append (tl.flatMap encodeSample) =
      tl.flatMap encodeSample from rfl]
    rw [ih htl]
    simp

/-- C3: one capture record serializes to exactly `4 + 8 + 4 × N` bytes — the
32-bit frame index, the 64-bit RX timestamp, then `N` samples of two
consecutive signed 16-bit integers (real then imaginary), with no padding,
length prefix or trailing delimiter — and re-parsing that byte layout
recovers the identical frame index, timestamp and CIR sample sequence. -/
theorem serializeRecord_roundtrip (msgNo : Int) (ts : Nat) (cir : List (Int × Int))
    (hm1 : -2147483648 ≤ msgNo) (hm2 : msgNo < 2147483648) (hts : ts < 2 ^ 64)
    (hcir : ∀ s ∈ cir, -32768 ≤ s.1 ∧ s.1 < 32768 ∧ -32768 ≤ s.2 ∧ s.2 < 32768) :
    (serializeRecord msgNo ts cir).length = 4 + 8 + 4 * cir.length ∧
    parseRecord cir.length (serializeRecord msgNo ts cir) =
      some (msgNo, ts, cir) := by
  have hAlen := leBytes_length 4 (twosComplement 4 msgNo)
  have hBlen := leBytes_length 8 (ts % 2 ^ 64)
  have hClen := flatMap_encodeSample_length cir
  have hlen : (serializeRecord msgNo ts cir).length = 4 + 8 + 4 * cir.length := by
    simp only [serializeRecord, List.length_append, hAlen, hBlen, hClen]
    omega
  refine ⟨hlen, ?_⟩
  have htake4 : (serializeRecord msgNo ts cir).take 4 =
      leBytes 4 (twosComplement 4 msgNo) := by
    unfold serializeRecord
    rw [List.take_append_of_le_length (by rw [hAlen])]
    exact List.take_of_length_le (le_of_eq hAlen)
  have hdrop4 : (serializeRecord msgNo ts cir).drop 4 =
      leBytes 8 (ts % 2 ^ 64) ++ cir.flatMap encodeSample := by
    unfold serializeRecord
    rw [List.drop_append_of_le_length (by rw [hAlen])]
    rw [List.drop_eq_nil_of_le (le_of_eq hAlen), List.nil_append]
  have htake8 : ((serializeRecord msgNo ts cir).drop 4).take 8 =
      leBytes 8 (ts % 2 ^ 64) := by
    rw [hdrop4, List.take_append_of_le_length (by rw [hBlen])]
    exact List.take_of_length_le (le_of_eq hBlen)
  have hdrop12 : (serializeRecord msgNo ts cir).drop 12 =
      cir.flatMap encodeSample := by
    have h12 : (12 : Nat) = 4 + 8 := by norm_num
    rw [h12, ← List.drop_drop, hdrop4]
    rw [List.drop_append_of_le_length (by rw [hBlen])]
    rw [List.drop_eq_nil_of_le (le_of_eq hBlen), List.nil_append]
  have hmsg : decodeInt 4 (decodeLE ((serializeRecord msgNo ts cir).take 4)) =
      msgNo := by
    rw [htake4, decodeLE_leBytes]
    rw [Nat.mod_eq_of_lt (by
      have := twosComplement4_lt msgNo
      norm_num
      omega)]
    exact decodeInt_twosComplement4 msgNo hm1 hm2
  have hts2 : decodeLE (((serializeRecord msgNo ts cir).drop 4).take 8) = ts := by
    rw [htake8, decodeLE_leBytes]
    have h88 : (256 : Nat) ^ 8 = 2 ^ 64 := by norm_num
    rw [h88]
    omega
  unfold parseRecord
  rw [if_pos (by rw [hlen])]
  rw [hdrop12, parseSamples_bind cir hcir, hmsg, hts2]
  rfl

/-- Concrete run of C3: a two-sample record (one negative component) parses
back to itself and its byte stream has length `4 + 8 + 4 × 2`. -/
theorem serializeRecord_roundtrip_witness :
    (serializeRecord 7 81985529216486895 [(100, -2), (-32768, 32767)]).length =
      4 + 8 + 4 * 2 ∧
    parseRecord 2 (serializeRecord 7 81985529216486895
        [(100, -2), (-32768, 32767)]) =
      some (7, 81985529216486895, [(100, -2), (-32768, 32767)]) := by
  have h := serializeRecord_roundtrip 7 81985529216486895
    [(100, -2), (-32768, 32767)] (by decide) (by decide) (by norm_num)
    (by decide)
  exact ⟨h.1, h.2⟩

/-- The device-side data one iteration of the reception loop of `main`
consumes.  `status_good` is whether the poll on `SYS_STATUS_ID` ended with
`SYS_STATUS_RXFCG` set (otherwise an RX error bit ended it); `rx_finfo` is
the `RX_FINFO_ID` register value; `rx_frame` are the frame bytes
`dwt_readrxdata` would deliver; `ts_bytes` the 5 raw RX timestamp bytes;
`readacc` the accumulator chunk-read behaviour; `fopen_ok` whether `fopen`
of the output file succeeds. -/
structure CycleInput where
  status_good : Bool
  rx_finfo : Nat
  rx_frame : List Nat
  ts_bytes : List Nat
  readacc : Nat → Nat → List Nat
  fopen_ok : Bool

/-- What one iteration of the reception loop did: the new `frame_count`, the
record handed to `saveCIRToFile` and written (`none` when no file was
written), how many times `dwt_readdiagnostics` ran, and whether `dwt_rxreset`
ran. -/
structure CycleOutput where
  frame_count : Int
  written : Option (Int × Nat × (Nat → Nat))
  diagReads : Nat
  rxReset : Bool

/-- One iteration of the `while (1)` body of `main` after the status poll
(lines 181–248 of `radar_rx.c`): on a good frame whose reported length
(`RX_FINFO & RX_FINFO_RXFL_MASK_1023`) fits `RX_BUF_LEN`, it reads the frame
into the zero-cleared `rx_buffer`, extracts `current_frame_count` from the
4 bytes at `RADAR_FRAME_DATA_IDX = 6`, extracts the RX timestamp, fills the
zero-cleared CIR buffer via `copyCIRToBuffer`, reads diagnostics once,
increments `frame_count`, and calls `saveCIRToFile`; an oversized good frame
does nothing further; an RX error clears status and resets the receiver. -/
def receptionCycle (frame_count : Int) (inp : CycleInput) : CycleOutput :=
  if inp.status_good then
    if inp.rx_finfo &&& 1023 ≤ RX_BUF_LEN then
      let rx_buffer : Nat → Nat := fun i =>
        if i < inp.rx_finfo &&& 1023 then inp.rx_frame.getD i 0 else 0
      let current_frame_count : Int := decodeInt 4
        (rx_buffer 6 + 256 * rx_buffer 7 + 65536 * rx_buffer 8 +
          16777216 * rx_buffer 9)
      let rx_timestamp := get_rx_timestamp_u64 inp.ts_bytes
      let cir := copyCIRToBuffer inp.readacc (fun _ => 0) (4 * CIR_SAMPLES)
      { frame_count := frame_count + 1,
        written := if inp.fopen_ok then
            some (current_frame_count, rx_timestamp, cir)
          else none,
        diagReads := 1,
        rxReset := false }
    else
      { frame_count := frame_count, written := none, diagReads := 0,
        rxReset := false }
  else
    { frame_count := frame_count, written := none, diagReads := 0,
      rxReset := true }

/-- The `while (1)` loop of `main`, driven by a finite script of cycle
inputs: before each re-arm it checks `max_frame_count > 0 && frame_count >=
max_frame_count` and stops with the completion notice (`true`) when the
check fires; otherwise it runs one reception cycle on the next script entry.
Returns the records written, in order, and whether the loop terminated via
the counter check (an exhausted script leaves the loop still waiting:
`false`). -/
def runSession (max_frame_count frame_count : Int) (inputs : List CycleInput) :
    List (Int × Nat × (Nat → Nat)) × Bool :=
  if max_frame_count > 0 ∧ frame_count ≥ max_frame_count then
    ([], true)
  else
    match inputs with
    | [] => ([], false)
    | inp :: rest =>
      let out := receptionCycle frame_count inp
      let r := runSession max_frame_count out.frame_count rest
      (out.written.toList ++ r.1, r.2)

/-- A fully successful cycle input: the poll ended on a good frame, the
reported length fits the frame buffer, and the output file opens. -/
def goodCycle (inp : CycleInput) : Prop :=
  inp.status_good = true ∧ inp.rx_finfo &&& 1023 ≤ RX_BUF_LEN ∧
    inp.fopen_ok = true

instance (inp : CycleInput) : Decidable (goodCycle inp) := by
  unfold goodCycle
  infer_instance

lemma receptionCycle_goodCycle (fc : Int) (inp : CycleInput)
    (h : goodCycle inp) :
    (receptionCycle fc inp).frame_count = fc + 1 ∧
    (receptionCycle fc inp).written.toList.length = 1 := by
  obtain ⟨h1, h2, h3⟩ := h
  simp [receptionCycle, h1, h2, h3]

lemma runSession_stop (max fc : Int) (h : max > 0 ∧ fc ≥ max) :
    ∀ inputs, runSession max fc inputs = ([], true) := by
  intro inputs
  cases inputs <;> (rw [runSession]; simp [h])

lemma runSession_nil (max fc : Int) (h : ¬ (max > 0 ∧ fc ≥ max)) :
    runSession max fc [] = ([], false) := by
  rw [runSession]
  simp [h]

lemma runSession_cons (max fc : Int) (inp : CycleInput)
    (rest : List CycleInput) (h : ¬ (max > 0 ∧ fc ≥ max)) :
    runSession max fc (inp :: rest) =
      ((receptionCycle fc inp).written.toList ++
        (runSession max (receptionCycle fc inp).frame_count rest).1,
       (runSession max (receptionCycle fc inp).frame_count rest).2) := by
  rw [runSession]
  simp [h]

/-- A session whose cycles are all fully successful produces one record per
cycle until the counter reaches the bound, then stops via the counter
check. -/
lemma runSession_count :
    ∀ (inputs : List CycleInput) (max fc : Int),
      (∀ i ∈ inputs, goodCycle i) → 0 < max → fc < max →
      (max - fc).toNat ≤ inputs.length →
      (runSession max fc inputs).1.length = (max - fc).toNat ∧
      (runSession max fc inputs).2 = true := by
  intro inputs
  induction inputs with
  | nil =>
    intro max fc hg hmax hfc hle
    exfalso
    simp only [List.length_nil] at hle
    omega
  | cons inp rest ih =>
    intro max fc hg hmax hfc hle
    have hcyc := receptionCycle_goodCycle fc inp (hg inp (List.mem_cons_self inp rest))
    rw [runSession_cons max fc inp rest (by omega)]
    rw [hcyc.1]
    by_cases hstop : fc + 1 ≥ max
    · rw [runSession_stop max (fc + 1) ⟨hmax, hstop⟩ rest]
      refine ⟨?_, rfl⟩
      simp only [List.length_append, hcyc.2, List.length_nil]
      omega
    · have hrec := ih max (fc + 1) (fun i hi => hg i (List.mem_cons_of_mem inp hi))
        hmax (by omega)
        (by simp only [List.length_cons] at hle; omega)
      refine ⟨?_, hrec.2⟩
      simp only [List.length_append, hcyc.2, hrec.1]
      omega

/-- With a non-positive frame-count bound the counter check `max_frame_count
> 0 && frame_count >= max_frame_count` never fires: the session behaves
exactly like the unbounded one (`max_frame_count = -1`) and never
self-terminates. -/
lemma runSession_nonpos (max : Int) (hmax : max ≤ 0) :
    ∀ (inputs : List CycleInput) (fc : Int),
      runSession max fc inputs = runSession (-1) fc inputs ∧
      (runSession max fc inputs).2 = false := by
  intro inputs
  induction inputs with
  | nil =>
    intro fc
    rw [runSession_nil max fc (by omega), runSession_nil (-1) fc (by omega)]
    exact ⟨rfl, rfl⟩
  | cons inp rest ih =>
    intro fc
    rw [runSession_cons max fc inp rest (by omega),
      runSession_cons (-1) fc inp rest (by omega)]
    obtain ⟨e, f⟩ := ih (receptionCycle fc inp).frame_count
    rw [e] at f ⊢
    exact ⟨rfl, by simpa using f⟩

/-- A good frame whose reported length (100 bytes) exceeds `RX_BUF_LEN`. -/
def oversizedInput : CycleInput :=
  ⟨true, 100, List.replicate 100 7, [1, 2, 3, 4, 5], fun _ _ => [], true⟩

/-- A good fitting frame whose output file fails to open. -/
def fopenFailInput : CycleInput :=
  ⟨true, 10, [0, 1, 2, 3, 4, 5, 6, 7, 8, 9], [1, 2, 3, 4, 5],
   dwt_readaccdata 170 (fun i => i % 256), false⟩

/-- A good fitting frame during which every device chunk read fails and
delivers no bytes. -/
def failingReadInput : CycleInput :=
  ⟨true, 10, [0, 1, 2, 3, 4, 5, 6, 7, 8, 9], [1, 2, 3, 4, 5],
   fun _ _ => [], true⟩

/-- A cycle that ends in an RX error. -/
def rxErrorInput : CycleInput :=
  ⟨false, 0, [], [], fun _ _ => [], true⟩

/-- A fully successful cycle input. -/
def goodInput : CycleInput :=
  ⟨true, 10, [0, 1, 2, 3, 4, 5, 6, 7, 8, 9], [1, 2, 3, 4, 5],
   dwt_readaccdata 170 (fun i => i % 256), true⟩

/-- C5: a good frame whose reported length exceeds `RX_BUF_LEN` is silently
dropped: the frame counter is unchanged, no record is serialized, and the
session continues — the cycle is a no-op in the session loop. -/
theorem oversized_frame_dropped (fc : Int) (inp : CycleInput)
    (h1 : inp.status_good = true) (h2 : RX_BUF_LEN < inp.rx_finfo &&& 1023) :
    (receptionCycle fc inp).frame_count = fc ∧
    (receptionCycle fc inp).written = none ∧
    ∀ max rest, ¬ (max > 0 ∧ fc ≥ max) →
      runSession max fc (inp :: rest) = runSession max fc rest := by
  have hnot : ¬ (inp.rx_finfo &&& 1023 ≤ RX_BUF_LEN) := by omega
  refine ⟨by simp [receptionCycle, h1, hnot], by simp [receptionCycle, h1, hnot], ?_⟩
  intro max rest hc
  rw [runSession_cons max fc inp rest hc]
  simp [receptionCycle, h1, hnot]

/-- Concrete run of C5: an oversized frame (reported length 100) leaves the
counter at 0. -/
theorem oversized_frame_dropped_witness :
    (receptionCycle 0 oversizedInput).frame_count = 0 ∧
    (receptionCycle 0 oversizedInput).written = none :=
  ⟨(oversized_frame_dropped 0 oversizedInput (by decide) (by decide)).1,
   (oversized_frame_dropped 0 oversizedInput (by decide) (by decide)).2.1⟩

/-- C6 counterexample: in a good fitting cycle whose `fopen` fails,
`saveCIRToFile` writes nothing, yet `frame_count` — already incremented
before serialization was attempted — still goes from 0 to 1.  This refutes
"never incremented for a cycle whose record fails to be written". -/
theorem frame_count_increment_before_write :
    (receptionCycle 0 fopenFailInput).frame_count = 1 ∧
    (receptionCycle 0 fopenFailInput).written = none := by
  constructor
  · decide
  · rfl

/-- C6 amended: `frame_count` is the only state threaded between cycles and
is monotonically non-decreasing; it is incremented exactly when a good frame
fits the buffer — before serialization is attempted — so it increments even
when the record fails to be written. -/
theorem frame_count_increment_characterization (fc : Int) (inp : CycleInput) :
    (receptionCycle fc inp).frame_count =
      (if inp.status_good = true ∧ inp.rx_finfo &&& 1023 ≤ RX_BUF_LEN
        then fc + 1 else fc) ∧
    fc ≤ (receptionCycle fc inp).frame_count := by
  by_cases h1 : inp.status_good <;>
    by_cases h2 : inp.rx_finfo &&& 1023 ≤ RX_BUF_LEN <;>
    simp [receptionCycle, h1, h2] <;> omega

/-- C8 counterexample: a cycle ending in an RX error performs zero
diagnostics reads (the `dwt_readdiagnostics` call sits inside the
good-fitting-frame branch), refuting "read exactly once in every cycle". -/
theorem diagnostics_skipped_on_error :
    (receptionCycle 0 rxErrorInput).diagReads = 0 ∧
    (receptionCycle 0 rxErrorInput).rxReset = true := by
  decide

/-- C8 amended: the Diagnostics Snapshot is read exactly once in a cycle
that ends in a good frame fitting the buffer, and zero times in oversized
dropped-frame or RX-error cycles. -/
theorem diagnostics_read_characterization (fc : Int) (inp : CycleInput) :
    (receptionCycle fc inp).diagReads =
      if inp.status_good = true ∧ inp.rx_finfo &&& 1023 ≤ RX_BUF_LEN
        then 1 else 0 := by
  by_cases h1 : inp.status_good <;>
    by_cases h2 : inp.rx_finfo &&& 1023 ≤ RX_BUF_LEN <;>
    simp [receptionCycle, h1, h2]

/-- Indexing an all-zero byte list. -/
lemma getD_replicate_zero (n i : Nat) : (List.replicate n (0 : Nat)).getD i 0 = 0 := by
  rw [List.getD_eq_getElem?_getD, List.getElem?_replicate]
  by_cases h : i < n <;> simp [h]

/-- When every device chunk read fails and delivers no bytes, each `memcpy`
copies only the `memset` zeros of the scratch buffer: the loop completes and
the zero-cleared destination stays all zeros. -/
lemma copyCIRToBufferLoop_failing :
    ∀ len loc, (copyCIRToBufferLoop (fun _ _ => []) (fun _ => 0) len loc).1 =
      fun _ => 0 := by
  have hmem : ∀ t loc, memcpyAt (fun _ => (0 : Nat)) loc
      (chunkBytes (fun _ _ => []) t loc) = fun _ => 0 := by
    intro t loc
    funext j
    simp only [memcpyAt, chunkBytes, devWrite, List.nil_append, List.drop_drop,
      List.drop_replicate, List.take_replicate, List.length_nil, List.length_replicate]
    split
    · exact getD_replicate_zero _ _
    · rfl
  intro len
  induction len using Nat.strong_induction_on with
  | _ len ih =>
    intro loc
    by_cases h : len > ACC_CHUNK
    · rw [copyCIRToBufferLoop_gt _ _ len loc h, hmem ACC_CHUNK loc]
      exact ih (len - ACC_CHUNK) (by simp only [ACC_CHUNK] at h ⊢; omega) (loc + ACC_CHUNK)
    · rw [copyCIRToBufferLoop_le _ _ len loc h]
      exact hmem len loc

/-- `copyCIRToBuffer` against the always-failing device, starting from the
zero-cleared destination, returns the all-zero store. -/
lemma copyCIRToBuffer_failing (len : Nat) :
    copyCIRToBuffer (fun _ _ => []) (fun _ => 0) len = fun _ => 0 :=
  copyCIRToBufferLoop_failing len 0

/-- C2 counterexample: with a device on which every chunk read fails
(delivers no bytes), the chunked read still runs to completion — there is no
status to check, `copyCIRToBuffer` returns `void` — and `main` hands the
record to the serializer anyway: `written` is produced, and the CIR buffer
inside it is still the zero-cleared `memset` state (nothing was filled),
refuting "the entire read is aborted and failure is signalled, and a
partially filled CIR buffer is never handed to the Record Serializer". -/
theorem chunk_read_failure_not_aborted :
    (receptionCycle 0 failingReadInput).written.isSome = true ∧
    (receptionCycle 0 failingReadInput).written.map (fun r => r.2.2) =
      some (fun _ => 0) := by
  refine ⟨rfl, ?_⟩
  simp only [receptionCycle]
  rw [if_pos (show failingReadInput.status_good = true from rfl)]
  rw [if_pos (show failingReadInput.rx_finfo &&& 1023 ≤ RX_BUF_LEN by decide)]
  rw [if_pos (show failingReadInput.fopen_ok = true from rfl)]
  rw [show failingReadInput.readacc = fun _ _ => [] from rfl]
  rw [copyCIRToBuffer_failing (4 * CIR_SAMPLES)]
  rfl

/-- C2 amended: the code has no abort or failure-signalling path for chunk
reads: for every device read behaviour — including arbitrary failures — a
good fitting-frame cycle with a successful file open always hands the
resulting CIR buffer to the Record Serializer. -/
theorem capture_always_serialized (fc : Int) (inp : CycleInput)
    (h1 : inp.status_good = true) (h2 : inp.rx_finfo &&& 1023 ≤ RX_BUF_LEN)
    (h3 : inp.fopen_ok = true) :
    (receptionCycle fc inp).written.isSome = true := by
  simp [receptionCycle, h1, h2, h3]

/-- Concrete run of the amended C2: even the always-failing device leads to
a serialized record. -/
theorem capture_always_serialized_witness :
    (receptionCycle 5 failingReadInput).written.isSome = true :=
  capture_always_serialized 5 failingReadInput (by decide) (by decide) (by decide)

/-- C7: a session with `max_frame_count = 3` over fully successful cycles
produces exactly 3 records and terminates via the counter check (emitting
the completion notice), while a session with no maximum supplied
(`max_frame_count = -1`) never terminates from the counter check alone. -/
theorem session_bounded_and_unbounded (inputs : List CycleInput)
    (hg : ∀ i ∈ inputs, goodCycle i) (h3 : 3 ≤ inputs.length) :
    ((runSession 3 0 inputs).1.length = 3 ∧ (runSession 3 0 inputs).2 = true) ∧
    ∀ (inputs2 : List CycleInput) (fc : Int),
      (runSession (-1) fc inputs2).2 = false := by
  constructor
  · have h := runSession_count inputs 3 0 hg (by norm_num) (by norm_num)
      (by simpa using h3)
    simpa using h
  · intro inputs2 fc
    exact (runSession_nonpos (-1) (by norm_num) inputs2 fc).2

/-- Concrete run of C7: three successful cycles, three records, clean stop. -/
theorem session_bounded_and_unbounded_witness :
    (runSession 3 0 [goodInput, goodInput, goodInput]).1.length = 3 ∧
    (runSession 3 0 [goodInput, goodInput, goodInput]).2 = true :=
  (session_bounded_and_unbounded [goodInput, goodInput, goodInput]
    (by decide) (by decide)).1

/-- C10: when the supplied maximum frame count parses to a value `≤ 0`
(for example `"0"`), the counter check `max_frame_count > 0 && frame_count
>= max_frame_count` never fires: the session is step-for-step identical to
the unbounded session (`max_frame_count = -1`, the unset value) and never
terminates from the counter check. -/
theorem nonpositive_max_is_unbounded (max : Int) (hmax : max ≤ 0)
    (inputs : List CycleInput) (fc : Int) :
    runSession max fc inputs = runSession (-1) fc inputs ∧
    (runSession max fc inputs).2 = false :=
  runSession_nonpos max hmax inputs fc

/-- Concrete run of C10: `max_frame_count = 0` never fires the counter
check even after a successful cycle. -/
theorem nonpositive_max_is_unbounded_witness :
    (runSession 0 0 [goodInput]).2 = false :=
  (nonpositive_max_is_unbounded 0 (by decide) [goodInput] 0).2

end RadarRx
